import Mathlib

/-!
Verification of the `onlywhen` static-analysis transform
(`src/transform/transformer.ts` and `src/transform/constants.ts`).

The TypeScript compiler API (parser, printer, AST node kinds) is an external
collaborator of the transform; the spec declares parse/print correctness out
of scope.  We therefore embed the transform over an explicit syntax-tree type
`Node` that mirrors the AST shapes the transformer inspects (boolean and
string literals, identifiers, property accesses, calls, import declarations,
decorators, class members, class declarations, blocks, and a `generic`
constructor for every other node kind, whose children are visited but never
rewritten).  Source text is represented by the tree handed to the printer;
`node.getText()` in a transformation record is represented by the pre-rewrite
node itself, and the line/column position metadata (supplied by the parser)
is not modelled.  All functions are direct translations of the TypeScript
source; reference equality of freshly created nodes is modelled by structural
equality, which coincides with it here because every rewrite changes the
structure of the node it replaces.
-/

namespace Onlywhen

/-- Platform targets (src/transform/types.ts, `TargetPlatform`). -/
inductive TargetPlatform where
  | darwin
  | linux
  | windows
deriving DecidableEq, Repr

/-- Runtime targets (src/transform/types.ts, `TargetRuntime`). -/
inductive TargetRuntime where
  | deno
  | node
  | bun
  | browser
deriving DecidableEq, Repr

/-- Architecture targets (src/transform/types.ts, `TargetArch`). -/
inductive TargetArch where
  | x64
  | arm64
deriving DecidableEq, Repr

/-- Target configuration (src/transform/types.ts, `TargetConfig`).  Every
field is optional; an absent field means the corresponding checks are left
as runtime checks. -/
structure TargetConfig where
  platform : Option TargetPlatform := none
  runtime : Option TargetRuntime := none
  arch : Option TargetArch := none
  features : Option (List String) := none
deriving DecidableEq, Repr

/-- `PLATFORM_PROPERTIES` (transform/constants.ts): property name to target
platform value. -/
def PLATFORM_PROPERTIES : List (String × TargetPlatform) :=
  [("darwin", .darwin), ("linux", .linux), ("windows", .windows)]

/-- `RUNTIME_PROPERTIES` (transform/constants.ts). -/
def RUNTIME_PROPERTIES : List (String × TargetRuntime) :=
  [("deno", .deno), ("node", .node), ("bun", .bun), ("browser", .browser)]

/-- `ARCH_PROPERTIES` (transform/constants.ts). -/
def ARCH_PROPERTIES : List (String × TargetArch) :=
  [("x64", .x64), ("arm64", .arm64)]

/-- `KNOWN_BOOLEAN_PROPERTIES` (transform/constants.ts): all platform,
runtime and architecture property names. -/
def KNOWN_BOOLEAN_PROPERTIES : List String :=
  PLATFORM_PROPERTIES.map Prod.fst ++ RUNTIME_PROPERTIES.map Prod.fst ++
    ARCH_PROPERTIES.map Prod.fst

/-- `COMBINATOR_EXPORT_NAMES` (transform/constants.ts). -/
def COMBINATOR_EXPORT_NAMES : List String := ["all", "any", "not"]

/-- `COMBINATOR_METHODS` (transform/constants.ts). -/
def COMBINATOR_METHODS : List String := ["all", "any", "not"]

/-- `DEFAULT_EXPORT_NAME` (transform/constants.ts). -/
def DEFAULT_EXPORT_NAME : String := "onlywhen"

/-- `FEATURE_METHOD` (transform/constants.ts). -/
def FEATURE_METHOD : String := "feature"

/-- Modelled from the spec: `FEATURE_EXPORT_NAME` is imported by the
transformer from `transform/constants.ts`, whose definition of it is not in
the sources; the spec (§6) prescribes exactly one feature-predicate canonical
export name, and the feature module's predicate is exported as `feature`,
matching `FEATURE_METHOD`. -/
def FEATURE_EXPORT_NAME : String := "feature"

/-- `DEFAULT_MODULE_SPECIFIERS` (transform/constants.ts). -/
def DEFAULT_MODULE_SPECIFIERS : List String :=
  ["@hiisi/onlywhen", "jsr:@hiisi/onlywhen", "onlywhen", "./mod.ts", "../mod.ts"]

/-- The three split-namespace export categories (`NAMESPACE_EXPORTS` keys in
transform/constants.ts; the `"platform" | "runtime" | "arch"` union in the
transformer). -/
inductive NsName where
  | platform
  | runtime
  | arch
deriving DecidableEq, Repr

/-- A method/constructor parameter.  Parameter sub-structure (names, type
annotations) is opaque to the transformer: it copies parameter lists
verbatim, so we model a parameter as a name with an optional type text. -/
structure Param where
  pname : String
  pty : Option String := none
deriving DecidableEq, Repr

/-- One element of a named-import clause: `importedName as localName`;
`propertyName = none` models `import { name }` without aliasing. -/
structure ImportSpecifierElt where
  propertyName : Option String := none
  name : String
deriving DecidableEq, Repr

/-- Named bindings of an import clause: `{ a, b as c }` or `* as ns`. -/
inductive NamedBindings where
  | named (elements : List ImportSpecifierElt)
  | star (name : String)
deriving DecidableEq, Repr

/-- An import clause: optional default-import name and optional named
bindings. -/
structure ImportClause where
  name : Option String := none
  namedBindings : Option NamedBindings := none
deriving DecidableEq, Repr

/-- The syntax-tree model.  Constructors cover exactly the node shapes the
transformer distinguishes; `generic` stands for every other node kind (its
children are visited, the node itself is never matched by a rewrite rule). -/
inductive Node where
  | boolLit (value : Bool)
  | strLit (text : String)
  | ident (text : String)
  | propAccess (expression : Node) (name : String)
  | call (callee : Node) (args : List Node)
  | importDecl (specifier : String) (clause : Option ImportClause)
  | decorator (expression : Node)
  | plainMod (text : String)
  | methodMember (modifiers : List Node) (asterisk : Bool) (name : String)
      (question : Bool) (params : List Param) (retTy : Option String)
      (body : Option Node)
  | ctorMember (modifiers : List Node) (params : List Param) (body : Option Node)
  | propMember (modifiers : List Node) (name : String) (question : Bool)
      (exclaim : Bool) (ty : Option String) (init : Option Node)
  | getAccessor (modifiers : List Node) (name : String) (body : List Node)
  | classDecl (modifiers : List Node) (name : Option String) (members : List Node)
  | block (stmts : List Node)
  | generic (tag : Nat) (children : List Node)
deriving Repr

mutual

/-- Boolean-valued structural equality on `Node` (the derived handler does
not support this nested inductive, so it is written by hand). -/
def nodeEq : Node → Node → Bool
  | .boolLit a, .boolLit b => a == b
  | .strLit a, .strLit b => a == b
  | .ident a, .ident b => a == b
  | .propAccess a p, .propAccess b q => nodeEq a b && p == q
  | .call a as, .call b bs => nodeEq a b && nodeListEq as bs
  | .importDecl s c, .importDecl t d => s == t && c == d
  | .decorator a, .decorator b => nodeEq a b
  | .plainMod a, .plainMod b => a == b
  | .methodMember m1 a1 n1 q1 p1 r1 b1, .methodMember m2 a2 n2 q2 p2 r2 b2 =>
      nodeListEq m1 m2 && a1 == a2 && n1 == n2 && q1 == q2 && p1 == p2 &&
        r1 == r2 && nodeOptEq b1 b2
  | .ctorMember m1 p1 b1, .ctorMember m2 p2 b2 =>
      nodeListEq m1 m2 && p1 == p2 && nodeOptEq b1 b2
  | .propMember m1 n1 q1 e1 t1 i1, .propMember m2 n2 q2 e2 t2 i2 =>
      nodeListEq m1 m2 && n1 == n2 && q1 == q2 && e1 == e2 && t1 == t2 &&
        nodeOptEq i1 i2
  | .getAccessor m1 n1 b1, .getAccessor m2 n2 b2 =>
      nodeListEq m1 m2 && n1 == n2 && nodeListEq b1 b2
  | .classDecl m1 n1 mem1, .classDecl m2 n2 mem2 =>
      nodeListEq m1 m2 && n1 == n2 && nodeListEq mem1 mem2
  | .block a, .block b => nodeListEq a b
  | .generic t1 c1, .generic t2 c2 => t1 == t2 && nodeListEq c1 c2
  | _, _ => false

/-- Structural equality on lists of nodes. -/
def nodeListEq : List Node → List Node → Bool
  | [], [] => true
  | a :: as, b :: bs => nodeEq a b && nodeListEq as bs
  | _, _ => false

/-- Structural equality on optional nodes. -/
def nodeOptEq : Option Node → Option Node → Bool
  | none, none => true
  | some a, some b => nodeEq a b
  | _, _ => false

end

theorem sizeOf_node_pos (a : Node) : 0 < sizeOf a := by cases a <;> simp_arith

set_option maxHeartbeats 2000000 in
theorem nodeEq_iff_aux : ∀ n : Nat,
    (∀ a b : Node, sizeOf a ≤ n → (nodeEq a b = true ↔ a = b)) ∧
    (∀ as bs : List Node, sizeOf as ≤ n → (nodeListEq as bs = true ↔ as = bs)) ∧
    (∀ oa ob : Option Node, sizeOf oa ≤ n → (nodeOptEq oa ob = true ↔ oa = ob)) := by
  intro n
  induction n with
  | zero =>
      refine ⟨fun a b h => absurd h ?_, fun as bs h => ?_, fun oa ob h => ?_⟩
      · have := sizeOf_node_pos a; omega
      · cases as <;> cases bs <;> simp_all [nodeListEq]
      · cases oa <;> cases ob <;> simp_all [nodeOptEq]
  | succ n ih =>
      obtain ⟨ihN, ihL, ihO⟩ := ih
      refine ⟨?_, ?_, ?_⟩
      · intro a b hle
        cases a <;> cases b <;> try (simp [nodeEq]; done)
        case propAccess.propAccess a p b q =>
          simp only [nodeEq, Bool.and_eq_true, beq_iff_eq, Node.propAccess.injEq]
          have ha : sizeOf a ≤ n := by simp_arith at hle; omega
          rw [ihN a b ha]
        case call.call a as b bs =>
          simp only [nodeEq, Bool.and_eq_true, Node.call.injEq]
          have ha : sizeOf a ≤ n := by simp_arith at hle; omega
          have has : sizeOf as ≤ n := by simp_arith at hle; omega
          rw [ihN a b ha, ihL as bs has]
        case decorator.decorator a b =>
          simp only [nodeEq, Node.decorator.injEq]
          have ha : sizeOf a ≤ n := by simp_arith at hle; omega
          rw [ihN a b ha]
        case methodMember.methodMember m1 a1 n1 q1 p1 r1 b1 m2 a2 n2 q2 p2 r2 b2 =>
          simp only [nodeEq, Bool.and_eq_true, beq_iff_eq, Node.methodMember.injEq]
          have hm : sizeOf m1 ≤ n := by simp_arith at hle; omega
          have hb : sizeOf b1 ≤ n := by simp_arith at hle; omega
          rw [ihL m1 m2 hm, ihO b1 b2 hb]
          tauto
        case ctorMember.ctorMember m1 p1 b1 m2 p2 b2 =>
          simp only [nodeEq, Bool.and_eq_true, beq_iff_eq, Node.ctorMember.injEq]
          have hm : sizeOf m1 ≤ n := by simp_arith at hle; omega
          have hb : sizeOf b1 ≤ n := by simp_arith at hle; omega
          rw [ihL m1 m2 hm, ihO b1 b2 hb]
          tauto
        case propMember.propMember m1 n1 q1 e1 t1 i1 m2 n2 q2 e2 t2 i2 =>
          simp only [nodeEq, Bool.and_eq_true, beq_iff_eq, Node.propMember.injEq]
          have hm : sizeOf m1 ≤ n := by simp_arith at hle; omega
          have hi : sizeOf i1 ≤ n := by simp_arith at hle; omega
          rw [ihL m1 m2 hm, ihO i1 i2 hi]
          tauto
        case getAccessor.getAccessor m1 n1 b1 m2 n2 b2 =>
          simp only [nodeEq, Bool.and_eq_true, beq_iff_eq, Node.getAccessor.injEq]
          have hm : sizeOf m1 ≤ n := by simp_arith at hle; omega
          have hb : sizeOf b1 ≤ n := by simp_arith at hle; omega
          rw [ihL m1 m2 hm, ihL b1 b2 hb]
          tauto
        case classDecl.classDecl m1 n1 mem1 m2 n2 mem2 =>
          simp only [nodeEq, Bool.and_eq_true, beq_iff_eq, Node.classDecl.injEq]
          have hm : sizeOf m1 ≤ n := by simp_arith at hle; omega
          have hmem : sizeOf mem1 ≤ n := by simp_arith at hle; omega
          rw [ihL m1 m2 hm, ihL mem1 mem2 hmem]
          tauto
        case block.block a b =>
          simp only [nodeEq, Node.block.injEq]
          have ha : sizeOf a ≤ n := by simp_arith at hle; omega
          rw [ihL a b ha]
        case generic.generic t1 c1 t2 c2 =>
          simp only [nodeEq, Bool.and_eq_true, beq_iff_eq, Node.generic.injEq]
          have hc : sizeOf c1 ≤ n := by simp_arith at hle; omega
          rw [ihL c1 c2 hc]
      · intro as bs hle
        cases as <;> cases bs <;> try (simp [nodeListEq]; done)
        case cons.cons a as b bs =>
          simp only [nodeListEq, Bool.and_eq_true, List.cons.injEq]
          have ha : sizeOf a ≤ n := by simp_arith at hle; omega
          have has : sizeOf as ≤ n := by simp_arith at hle; omega
          rw [ihN a b ha, ihL as bs has]
      · intro oa ob hle
        cases oa <;> cases ob <;> try (simp [nodeOptEq]; done)
        case some.some a b =>
          simp only [nodeOptEq, Option.some.injEq]
          have ha : sizeOf a ≤ n := by simp_arith at hle; omega
          rw [ihN a b ha]

theorem nodeEq_iff (a b : Node) : nodeEq a b = true ↔ a = b :=
  (nodeEq_iff_aux (sizeOf a)).1 a b le_rfl

instance : DecidableEq Node := fun a b =>
  decidable_of_iff (nodeEq a b = true) (nodeEq_iff a b)

/-- `NAMESPACE_EXPORTS` (transform/constants.ts): the per-category property
records.  The three records have differently typed values in the source, so
the selection is by category; `resolveNamespacePropertyValue` consumes it
per category exactly as the source's `switch` does. -/
def NAMESPACE_EXPORTS_keys : List String := ["platform", "runtime", "arch"]

/-- `resolveNamespacePropertyValue` (transformer, lines 186-207): resolves
`platform.darwin`, `runtime.node`, `arch.x64`, … against the target
configuration; `none` models `undefined` (do not transform). -/
def resolveNamespacePropertyValue (namespaceName : NsName) (propertyName : String)
    (config : TargetConfig) : Option Bool :=
  match namespaceName with
  | .platform =>
      match PLATFORM_PROPERTIES.lookup propertyName with
      | none => none
      | some targetValue =>
          match config.platform with
          | none => none
          | some p => some (decide (p = targetValue))
  | .runtime =>
      match RUNTIME_PROPERTIES.lookup propertyName with
      | none => none
      | some targetValue =>
          match config.runtime with
          | none => none
          | some r => some (decide (r = targetValue))
  | .arch =>
      match ARCH_PROPERTIES.lookup propertyName with
      | none => none
      | some targetValue =>
          match config.arch with
          | none => none
          | some a => some (decide (a = targetValue))

/-- `resolvePropertyValue` (transformer, lines 213-236): resolves an
aggregate-object property (`onlywhen.darwin`, `onlywhen.node`, …), checking
the platform, runtime and architecture property sets in that order. -/
def resolvePropertyValue (propertyName : String) (config : TargetConfig) :
    Option Bool :=
  match PLATFORM_PROPERTIES.lookup propertyName with
  | some targetValue =>
      match config.platform with
      | none => none
      | some p => some (decide (p = targetValue))
  | none =>
  match RUNTIME_PROPERTIES.lookup propertyName with
  | some targetValue =>
      match config.runtime with
      | none => none
      | some r => some (decide (r = targetValue))
  | none =>
  match ARCH_PROPERTIES.lookup propertyName with
  | some targetValue =>
      match config.arch with
      | none => none
      | some a => some (decide (a = targetValue))
  | none => none

/-- The argument-extraction loop of `evaluateCombinator`: succeeds only when
every argument is a boolean literal node. -/
def extractBooleanArgs : List Node → Option (List Bool)
  | [] => some []
  | .boolLit b :: rest => (extractBooleanArgs rest).map (fun bs => b :: bs)
  | _ :: _ => none

/-- `evaluateCombinator` (transformer, lines 242-272): evaluates a
combinator call whose (already transformed) arguments are all boolean
literals; `none` models `undefined` (cannot evaluate statically). -/
def evaluateCombinator (methodName : String) (args : List Node) : Option Bool :=
  match extractBooleanArgs args with
  | none => none
  | some booleanArgs =>
      if methodName = "all" then some (booleanArgs.all (fun b => b))
      else if methodName = "any" then some (booleanArgs.any (fun b => b))
      else if methodName = "not" then
        match booleanArgs with
        | [b] => some (!b)
        | _ => none
      else none

/-- `evaluateFeature` (transformer, lines 278-290): evaluates a feature
check; `none` when the feature list is absent or the argument is not a
string literal. -/
def evaluateFeature (arg : Node) (features : Option (List String)) : Option Bool :=
  match features with
  | none => none
  | some fs =>
      match arg with
      | .strLit featureName => some (fs.contains featureName)
      | _ => none

/-- `evaluateCombinatorValues` (transformer, lines 898-912): the same
combinator switch over already-known boolean values. -/
def evaluateCombinatorValues (combinator : String) (values : List Bool) :
    Option Bool :=
  if combinator = "all" then some (values.all (fun v => v))
  else if combinator = "any" then some (values.any (fun v => v))
  else if combinator = "not" then
    match values with
    | [v] => some (!v)
    | _ => none
  else none

/-- The lookup structures `createTransformerFactory` derives from the
Import Binding Table: `onlywhenNames`, `starImports`,
`namespaceLocalToExport`, `combinatorLocalToExport`, `featureLocalName`.
Set membership is by name; the two maps are association lists with at most
one entry per key (`Map.set` semantics). -/
structure Bindings where
  onlywhenNames : List String := []
  starImports : List String := []
  nsMap : List (String × NsName) := []
  combMap : List (String × String) := []
  featureLocal : Option String := none
deriving DecidableEq, Repr

/-- `isOnlywhenIdentifier` (transformer closure). -/
def isOnlywhenIdentifier (B : Bindings) : Node → Bool
  | .ident t => B.onlywhenNames.contains t
  | _ => false

/-- `getOnlywhenObject` (transformer closure): the source returns the
matched object expression and callers use only its truthiness, so we return
that truth value.  `obj` is the `expression` child of the property access
under test. -/
def getOnlywhenObject (B : Bindings) (obj : Node) : Bool :=
  match obj with
  | .ident t => B.onlywhenNames.contains t && !B.starImports.contains t
  | .propAccess (.ident t) nm =>
      B.starImports.contains t && nm == DEFAULT_EXPORT_NAME
  | _ => false

/-- `getNamespaceAccess` (transformer closure): matches `platform.darwin`
etc.; `obj`/`pname` are the children of the property access under test. -/
def getNamespaceAccess (B : Bindings) (obj : Node) (pname : String) :
    Option (NsName × String) :=
  match obj with
  | .ident t => (B.nsMap.lookup t).map (fun ns => (ns, pname))
  | _ => none

/-- `getStandaloneCombinator` (transformer closure). -/
def getStandaloneCombinator (B : Bindings) (callee : Node) : Option String :=
  match callee with
  | .ident t => B.combMap.lookup t
  | _ => none

/-- `isStandaloneFeatureCall` (transformer closure); the
`featureLocalName &&` guard at its call sites is subsumed because
`none == some t` is false. -/
def isStandaloneFeatureCall (B : Bindings) (callee : Node) : Bool :=
  match callee with
  | .ident t => B.featureLocal == some t
  | _ => false

/-- The feature-method tail of the call handling, shared by the visitor and
the evaluator (`methodName === FEATURE_METHOD && node.arguments.length === 1`
followed by `evaluateFeature`). -/
def evalMethodFeaturePart (cfg : TargetConfig) (m : String) (args : List Node) :
    Option Bool :=
  match args, m == FEATURE_METHOD with
  | [a], true => evaluateFeature a cfg.features
  | _, _ => none

/-- `featureLocalName && isStandaloneFeatureCall(callee) &&
node.arguments.length === 1`: the standalone feature-call guard shared by
the visitor and the evaluator. -/
def isFeatureCallGuard (B : Bindings) (callee : Node) (args : List Node) : Bool :=
  isStandaloneFeatureCall B callee && args.length == 1

/-- The standalone feature-call resolution step of the visitor: the guard
followed by `evaluateFeature` on the sole argument. -/
def featureCallStep (B : Bindings) (cfg : TargetConfig) (callee : Node)
    (args : List Node) : Option Bool :=
  if isFeatureCallGuard B callee args then
    evaluateFeature (args.headD (.boolLit false)) cfg.features
  else none

/-- The namespace-property resolution step of the visitor
(`getNamespaceAccess` followed by `resolveNamespacePropertyValue`). -/
def nsResolutionStep (B : Bindings) (cfg : TargetConfig) (obj : Node)
    (pname : String) : Option Bool :=
  match getNamespaceAccess B obj pname with
  | some (ns, p) => resolveNamespacePropertyValue ns p cfg
  | none => none

/-- The aggregate-property resolution step of the visitor
(`getOnlywhenObject`, the `KNOWN_BOOLEAN_PROPERTIES` membership test, and
`resolvePropertyValue`). -/
def aggResolutionStep (B : Bindings) (cfg : TargetConfig) (obj : Node)
    (pname : String) : Option Bool :=
  if getOnlywhenObject B obj && KNOWN_BOOLEAN_PROPERTIES.contains pname then
    resolvePropertyValue pname cfg
  else none

/-- `every(v => v !== undefined)` followed by the cast to `boolean[]`. -/
def allSome : List (Option Bool) → Option (List Bool)
  | [] => some []
  | none :: _ => none
  | some b :: rest => (allSome rest).map (fun bs => b :: bs)

/-- The `isPropertyAccessExpression(callee)` block of the evaluator:
`onlywhen.all(...)`, `onlywhen.feature("name")`, …. -/
def evalCallMethodPart (B : Bindings) (cfg : TargetConfig) (callee : Node)
    (args : List Node) (vals : List (Option Bool)) : Option Bool :=
  match callee with
  | .propAccess cobj m =>
      if getOnlywhenObject B cobj then
        if COMBINATOR_METHODS.contains m then
          match allSome vals with
          | some bs => evaluateCombinatorValues m bs
          | none => evalMethodFeaturePart cfg m args
        else evalMethodFeaturePart cfg m args
      else none
  | _ => none

/-- The part of `evaluateExpressionToBoolean`'s call handling that follows
the standalone-feature check.  The argument values are computed once and
passed in (`vals`); the source recomputes the same pure list in both the
standalone-combinator and method branches. -/
def evalCallNonRec (B : Bindings) (cfg : TargetConfig) (callee : Node)
    (args : List Node) (vals : List (Option Bool)) : Option Bool :=
  match getStandaloneCombinator B callee with
  | some op =>
      match allSome vals with
      | some bs => evaluateCombinatorValues op bs
      | none => evalCallMethodPart B cfg callee args vals
  | none => evalCallMethodPart B cfg callee args vals

mutual

/-- `evaluateExpressionToBoolean` (transformer, lines 822-893): the
recursive boolean evaluator used for decorator arguments. -/
def evaluateExpressionToBoolean (B : Bindings) (cfg : TargetConfig) :
    Node → Option Bool
  | .boolLit b => some b
  | .propAccess obj pname =>
      match getNamespaceAccess B obj pname with
      | some (ns, p) => resolveNamespacePropertyValue ns p cfg
      | none => aggResolutionStep B cfg obj pname
  | .call callee args =>
      if isFeatureCallGuard B callee args then
        evaluateFeature (args.headD (.boolLit false)) cfg.features
      else
        evalCallNonRec B cfg callee args (evalArgsToBoolean B cfg args)
  | _ => none

/-- `node.arguments.map((a) => evaluateExpressionToBoolean(a))`. -/
def evalArgsToBoolean (B : Bindings) (cfg : TargetConfig) :
    List Node → List (Option Bool)
  | [] => []
  | a :: rest =>
      evaluateExpressionToBoolean B cfg a :: evalArgsToBoolean B cfg rest

end

/-- The `type` tag of a `TransformInfo` record (src/transform/types.ts). -/
inductive TransformKind where
  | property
  | combinator
  | feature
  | decorator
deriving DecidableEq, Repr

/-- One transformation record (src/transform/types.ts, `TransformInfo`).
The source stores the node's original source text (`node.getText`) and its
parser-supplied line/column; text and positions belong to the out-of-scope
parser/printer collaborator, so `original` is the pre-rewrite node itself
and positions are not modelled.  The field `type` is named `kind` here. -/
structure TransformInfo where
  kind : TransformKind
  original : Node
  replacement : String
deriving DecidableEq, Repr

/-- `value ? "true" : "false"`. -/
def replacementString (b : Bool) : String := if b then "true" else "false"

/-- `ts.isDecorator` on a modifier-like node. -/
def isDecoratorNode : Node → Bool
  | .decorator _ => true
  | _ => false

/-- `modifiers?.filter((m) => !ts.isDecorator(m))`. -/
def stripDecorators (mods : List Node) : List Node :=
  mods.filter (fun m => !isDecoratorNode m)

/-- `evaluateOnlywhenDecorator` (transformer, lines 790-816). -/
def evaluateOnlywhenDecorator (B : Bindings) (cfg : TargetConfig) (dec : Node) :
    Option Bool :=
  match dec with
  | .decorator (.call callee args) =>
      if isOnlywhenIdentifier B callee then
        match args with
        | [arg] => evaluateExpressionToBoolean B cfg arg
        | _ => none
      else none
  | .decorator _ => none
  | _ => none

/-- The `for (const decorator of decorators)` loop head shared by the class
and method branches: the first decorator whose `evaluateOnlywhenDecorator`
result is defined, together with its index (the source removes precisely
that occurrence by object identity). -/
def findFirstDecoratorEval (B : Bindings) (cfg : TargetConfig) :
    List Node → Option (Nat × Node × Bool)
  | [] => none
  | d :: rest =>
      match evaluateOnlywhenDecorator B cfg d with
      | some v => some (0, d, v)
      | none =>
          (findFirstDecoratorEval B cfg rest).map
            (fun x => (x.1 + 1, x.2.1, x.2.2))

/-- The member loop of the class false branch (transformer, lines 661-700):
methods and constructors are rebuilt with empty bodies, property
declarations lose their initializers, every other member kind is skipped. -/
def stubClassMember : Node → Option Node
  | .methodMember mods ast nm q ps rT _ =>
      some (.methodMember (stripDecorators mods) ast nm q ps rT
        (some (.block [])))
  | .ctorMember mods ps _ =>
      some (.ctorMember (stripDecorators mods) ps (some (.block [])))
  | .propMember mods nm q e ty _ =>
      some (.propMember (stripDecorators mods) nm q (!q && e) ty none)
  | _ => none

mutual

/-- The `visitor` function of `createTransformerFactory` (transformer,
lines 448-784).  Returns the rewritten node together with the transformation
records pushed while visiting it, in push order.  Where the source falls
through to `ts.visitEachChild`, the children of the concrete constructor are
visited in the source order of `visitEachChild` (modifiers before members
and bodies, callee before arguments). -/
def visit (B : Bindings) (cfg : TargetConfig) : Node → Node × List TransformInfo
  | .boolLit b => (.boolLit b, [])
  | .strLit s => (.strLit s, [])
  | .ident t => (.ident t, [])
  | .importDecl s c => (.importDecl s c, [])
  | .plainMod s => (.plainMod s, [])
  | .propAccess obj pname =>
      match nsResolutionStep B cfg obj pname with
      | some v =>
          (.boolLit v,
           [⟨.property, .propAccess obj pname, replacementString v⟩])
      | none =>
          match aggResolutionStep B cfg obj pname with
          | some v =>
              (.boolLit v,
               [⟨.property, .propAccess obj pname, replacementString v⟩])
          | none =>
              let vo := visit B cfg obj
              (.propAccess vo.1 pname, vo.2)
  | .call callee args =>
      match featureCallStep B cfg callee args with
      | some v =>
          (.boolLit v, [⟨.feature, .call callee args, replacementString v⟩])
      | none =>
        match getStandaloneCombinator B callee with
        | some op =>
            let va := visitList B cfg args
            (match evaluateCombinator op va.1 with
             | some v =>
                 (.boolLit v,
                  va.2 ++ [⟨.combinator, .call callee args, replacementString v⟩])
             | none =>
                 if va.1 ≠ args then (.call callee va.1, va.2)
                 else
                   -- fall-through to `visitEachChild`: the first argument
                   -- visit already happened (and pushed its records), then
                   -- the callee and the arguments are visited again.
                   let vc := visit B cfg callee
                   let va2 := visitList B cfg args
                   (.call vc.1 va2.1, va.2 ++ vc.2 ++ va2.2))
        | none =>
          match callee with
          | .propAccess cobj m =>
              if getOnlywhenObject B cobj then
                if COMBINATOR_METHODS.contains m then
                  let va := visitList B cfg args
                  (match evaluateCombinator m va.1 with
                   | some v =>
                       (.boolLit v,
                        va.2 ++
                          [⟨.combinator, .call callee args, replacementString v⟩])
                   | none =>
                       if va.1 ≠ args then (.call callee va.1, va.2)
                       else
                         let vc := visit B cfg callee
                         let va2 := visitList B cfg args
                         (.call vc.1 va2.1, va.2 ++ vc.2 ++ va2.2))
                else
                  match evalMethodFeaturePart cfg m args with
                  | some v =>
                      (.boolLit v,
                       [⟨.feature, .call callee args, replacementString v⟩])
                  | none =>
                      let vc := visit B cfg callee
                      let va2 := visitList B cfg args
                      (.call vc.1 va2.1, vc.2 ++ va2.2)
              else
                let vc := visit B cfg callee
                let va2 := visitList B cfg args
                (.call vc.1 va2.1, vc.2 ++ va2.2)
          | _ =>
              let vc := visit B cfg callee
              let va2 := visitList B cfg args
              (.call vc.1 va2.1, vc.2 ++ va2.2)
  | .classDecl mods cname members =>
      let decorators := mods.filter isDecoratorNode
      let otherModifiers := mods.filter (fun m => !isDecoratorNode m)
      (match findFirstDecoratorEval B cfg decorators with
       | some (i, d, true) =>
           let remaining := decorators.eraseIdx i
           let vm := visitList B cfg members
           (.classDecl (remaining ++ otherModifiers) cname vm.1,
            ⟨.decorator, d, "(removed - condition true)"⟩ :: vm.2)
       | some (_i, d, false) =>
           (.classDecl otherModifiers cname (members.filterMap stubClassMember),
            [⟨.decorator, d, "(removed - class stubbed)"⟩])
       | none =>
           let vmods := visitList B cfg mods
           let vm := visitList B cfg members
           (.classDecl vmods.1 cname vm.1, vmods.2 ++ vm.2))
  | .methodMember mods ast nm q ps rT body =>
      let decorators := mods.filter isDecoratorNode
      let otherModifiers := mods.filter (fun m => !isDecoratorNode m)
      (match findFirstDecoratorEval B cfg decorators with
       | some (i, d, true) =>
           let remaining := decorators.eraseIdx i
           let vb := visitOpt B cfg body
           (.methodMember (remaining ++ otherModifiers) ast nm q ps rT vb.1,
            ⟨.decorator, d, "(removed - condition true)"⟩ :: vb.2)
       | some (_i, d, false) =>
           (.methodMember otherModifiers ast nm q ps rT (some (.block [])),
            [⟨.decorator, d, "(removed - method stubbed)"⟩])
       | none =>
           let vmods := visitList B cfg mods
           let vb := visitOpt B cfg body
           (.methodMember vmods.1 ast nm q ps rT vb.1, vmods.2 ++ vb.2))
  | .ctorMember mods ps body =>
      let vmods := visitList B cfg mods
      let vb := visitOpt B cfg body
      (.ctorMember vmods.1 ps vb.1, vmods.2 ++ vb.2)
  | .propMember mods nm q e ty init =>
      let vmods := visitList B cfg mods
      let vi := visitOpt B cfg init
      (.propMember vmods.1 nm q e ty vi.1, vmods.2 ++ vi.2)
  | .getAccessor mods nm body =>
      let vmods := visitList B cfg mods
      let vb := visitList B cfg body
      (.getAccessor vmods.1 nm vb.1, vmods.2 ++ vb.2)
  | .decorator e =>
      let ve := visit B cfg e
      (.decorator ve.1, ve.2)
  | .block stmts =>
      let vs := visitList B cfg stmts
      (.block vs.1, vs.2)
  | .generic t ch =>
      let vch := visitList B cfg ch
      (.generic t vch.1, vch.2)

/-- `ts.visitNode` mapped over a node list (argument lists, member lists,
modifier lists, statement lists), records in visit order. -/
def visitList (B : Bindings) (cfg : TargetConfig) :
    List Node → List Node × List TransformInfo
  | [] => ([], [])
  | x :: xs =>
      let vx := visit B cfg x
      let vxs := visitList B cfg xs
      (vx.1 :: vxs.1, vx.2 ++ vxs.2)

/-- `ts.visitNode` on an optional child (method bodies, initializers). -/
def visitOpt (B : Bindings) (cfg : TargetConfig) :
    Option Node → Option Node × List TransformInfo
  | none => (none, [])
  | some x =>
      let vx := visit B cfg x
      (some vx.1, vx.2)

end

/-- `ImportInfo` (transformer, lines 50-55). -/
structure ImportInfo where
  localName : String
  isNamespace : Bool
deriving DecidableEq, Repr

/-- `NamespaceImportInfo` (transformer, lines 60-65). -/
structure NamespaceImportInfo where
  localName : String
  exportName : NsName
deriving DecidableEq, Repr

/-- `CombinatorImportInfo` (transformer, lines 70-75); the export name is
one of `"all" | "any" | "not"`. -/
structure CombinatorImportInfo where
  localName : String
  exportName : String
deriving DecidableEq, Repr

/-- `FeatureImportInfo` (transformer, lines 80-83). -/
structure FeatureImportInfo where
  localName : String
deriving DecidableEq, Repr

/-- `AllImports` (transformer, lines 88-97). -/
structure AllImports where
  onlywhen : List ImportInfo := []
  namespaces : List NamespaceImportInfo := []
  combinators : List CombinatorImportInfo := []
  feature : Option FeatureImportInfo := none
deriving DecidableEq, Repr

/-- `specifier === s || specifier.startsWith(s + "@")` over the accepted
module specifiers. -/
def isOnlywhenSpecifier (moduleSpecifiers : List String) (specifier : String) :
    Bool :=
  moduleSpecifiers.any
    (fun s => specifier == s || specifier.startsWith (s ++ "@"))

/-- The lookup `importedName in NAMESPACE_EXPORTS` together with the cast to
the namespace union type. -/
def namespaceExportOf (importedName : String) : Option NsName :=
  if importedName = "platform" then some .platform
  else if importedName = "runtime" then some .runtime
  else if importedName = "arch" then some .arch
  else none

/-- Processing of one named-import element (transformer, lines 135-158). -/
def processImportElt (acc : AllImports) (elt : ImportSpecifierElt) : AllImports :=
  let importedName := elt.propertyName.getD elt.name
  let localName := elt.name
  if importedName = DEFAULT_EXPORT_NAME then
    { acc with onlywhen := acc.onlywhen ++ [⟨localName, false⟩] }
  else
    match namespaceExportOf importedName with
    | some ns => { acc with namespaces := acc.namespaces ++ [⟨localName, ns⟩] }
    | none =>
        if COMBINATOR_EXPORT_NAMES.contains importedName then
          { acc with
            combinators := acc.combinators ++ [⟨localName, importedName⟩] }
        else if importedName = FEATURE_EXPORT_NAME then
          { acc with feature := some ⟨localName⟩ }
        else acc

/-- Processing of one top-level statement by `findAllImports`'s
`forEachChild` callback (transformer, lines 115-173). -/
def processImportDecl (moduleSpecifiers : List String) (acc : AllImports) :
    Node → AllImports
  | .importDecl specifier clause =>
      if isOnlywhenSpecifier moduleSpecifiers specifier then
        match clause with
        | none => acc
        | some c =>
            let acc1 :=
              match c.namedBindings with
              | some (.named elements) => elements.foldl processImportElt acc
              | some (.star nsName) =>
                  { acc with onlywhen := acc.onlywhen ++ [⟨nsName, true⟩] }
              | none => acc
            match c.name with
            | some defaultName =>
                { acc1 with onlywhen := acc1.onlywhen ++ [⟨defaultName, false⟩] }
            | none => acc1
      else acc
  | _ => acc

/-- `findAllImports` (transformer, lines 103-176): scans the top-level
statements of the source file. -/
def findAllImports (stmts : List Node) (moduleSpecifiers : List String) :
    AllImports :=
  stmts.foldl (processImportDecl moduleSpecifiers) {}

/-- The `hasImports` short-circuit test (transformer, lines 335-338). -/
def hasImports (ai : AllImports) : Bool :=
  !ai.onlywhen.isEmpty || !ai.namespaces.isEmpty || !ai.combinators.isEmpty ||
    ai.feature.isSome

/-- `Map.set` on an association list: at most one entry per key, later
registrations win. -/
def mapSet {α : Type} (m : List (String × α)) (k : String) (v : α) :
    List (String × α) :=
  m.filter (fun p => p.1 ≠ k) ++ [(k, v)]

/-- The binding-table construction of `createTransformerFactory`
(transformer, lines 344-363). -/
def mkBindings (ai : AllImports) : Bindings where
  onlywhenNames := ai.onlywhen.map (fun i => i.localName)
  starImports :=
    (ai.onlywhen.filter (fun i => i.isNamespace)).map (fun i => i.localName)
  nsMap :=
    ai.namespaces.foldl (fun m ns => mapSet m ns.localName ns.exportName) []
  combMap :=
    ai.combinators.foldl (fun m c => mapSet m c.localName c.exportName) []
  featureLocal := ai.feature.map (fun f => f.localName)

/-- A parsed source file: its top-level statements.  (`ts.visitNode` on the
`SourceFile` node reaches them through `visitEachChild`.) -/
abbrev SourceFile : Type := List Node

/-- The transformer applied to one source file (transformer, lines
329-916): build the Import Binding Table, short-circuit when it is empty,
otherwise run the visitor. -/
def transformSourceFile (config : TargetConfig) (moduleSpecifiers : List String)
    (sourceFile : SourceFile) : SourceFile × List TransformInfo :=
  let allImports := findAllImports sourceFile moduleSpecifiers
  if hasImports allImports then
    visitList (mkBindings allImports) config sourceFile
  else (sourceFile, [])

/-- `TransformOptions` (src/transform/types.ts, lines 98-115). -/
structure TransformOptions where
  moduleSpecifiers : Option (List String) := none
  sourceMap : Bool := false
  filename : Option String := none

/-- `TransformResult` (src/transform/types.ts, lines 122-143).  The `code`
string is produced by the out-of-scope printer from the rewritten tree, so
it is represented by that tree. -/
structure TransformResult where
  code : SourceFile
  transformCount : Nat
  transformations : List TransformInfo
  sourceMap : Option String

/-- `transform` (transformer, lines 940-980).  Parsing the source text and
printing the result belong to the collaborator; the `await
ensureTypeScript()` one-time module load has no observable effect on the
result. -/
def transform (source : SourceFile) (config : TargetConfig)
    (options : TransformOptions := {}) : TransformResult :=
  let moduleSpecifiers := options.moduleSpecifiers.getD DEFAULT_MODULE_SPECIFIERS
  let r := transformSourceFile config moduleSpecifiers source
  { code := r.1
    transformCount := r.2.length
    transformations := r.2
    sourceMap := none }

/-- `transformSync` (transformer, lines 986-1030): identical computation;
the `TypeScript not loaded` guard concerns the runtime module-loading
environment, not the transformation itself. -/
def transformSync (source : SourceFile) (config : TargetConfig)
    (options : TransformOptions := {}) : TransformResult :=
  let moduleSpecifiers := options.moduleSpecifiers.getD DEFAULT_MODULE_SPECIFIERS
  let r := transformSourceFile config moduleSpecifiers source
  { code := r.1
    transformCount := r.2.length
    transformations := r.2
    sourceMap := none }

/-! ## Helper lemmas -/

theorem processImportDecl_no_match (specs : List String) (acc : AllImports)
    (x : Node) (h : ∀ s c, x = Node.importDecl s c →
      isOnlywhenSpecifier specs s = false) :
    processImportDecl specs acc x = acc := by
  cases x <;> simp [processImportDecl]
  next s c => rw [h s c rfl]; simp

theorem findAllImports_empty (specs : List String) (stmts : List Node)
    (h : ∀ s c, Node.importDecl s c ∈ stmts →
      isOnlywhenSpecifier specs s = false) :
    findAllImports stmts specs = {} := by
  unfold findAllImports
  induction stmts with
  | nil => rfl
  | cons x xs ih =>
      rw [List.foldl_cons,
        processImportDecl_no_match specs {} x
          (fun s c hx => h s c (by rw [hx] at *; exact List.mem_cons_self ..))]
      exact ih (fun s c hm => h s c (List.mem_cons_of_mem _ hm))

/-! ## Claim theorems -/

/-- C10: for every input source, target configuration, and options value —
including options with `sourceMap` set to `true` — the result's `sourceMap`
field is `undefined` for both `transform` and `transformSync`. -/
theorem C10_sourceMap_never_generated (source : SourceFile)
    (config : TargetConfig) (options : TransformOptions) :
    (transform source config options).sourceMap = none ∧
      (transformSync source config options).sourceMap = none :=
  ⟨rfl, rfl⟩

/-- C5: for every source file containing no import whose module specifier
matches a recognized onlywhen module (under the effective specifier list),
and for every target configuration, `transform` returns the source
unchanged, a `transformCount` of 0, and an empty transformation log.  The
short-circuit hands the untouched parse tree to the printer, so the printed
`code` is the print of the input itself. -/
theorem C5_no_import_identity (source : SourceFile) (config : TargetConfig)
    (options : TransformOptions)
    (h : ∀ s c, Node.importDecl s c ∈ source →
      isOnlywhenSpecifier (options.moduleSpecifiers.getD DEFAULT_MODULE_SPECIFIERS)
        s = false) :
    (transform source config options).code = source ∧
      (transform source config options).transformCount = 0 ∧
      (transform source config options).transformations = [] := by
  have he : findAllImports source
      (options.moduleSpecifiers.getD DEFAULT_MODULE_SPECIFIERS) = {} :=
    findAllImports_empty _ source h
  simp only [transform, transformSourceFile, he]
  exact ⟨rfl, rfl, rfl⟩

/-- Witness for C5 at a concrete two-statement file with one foreign
import. -/
theorem C5_no_import_identity_witness :
    (transform [Node.ident "x", Node.importDecl "lodash" none] {} {}).code =
        [Node.ident "x", Node.importDecl "lodash" none] ∧
      (transform [Node.ident "x", Node.importDecl "lodash" none] {} {}).transformCount = 0 ∧
      (transform [Node.ident "x", Node.importDecl "lodash" none] {} {}).transformations = [] := by
  refine C5_no_import_identity _ {} {} ?_
  intro s c hm
  simp at hm
  rw [hm.1]
  decide

/-- C6: `evaluateCombinator` over fully literal arguments computes the
conjunction, disjunction, or inversion; negation of an argument count other
than one is `Unknown`, not an error; and one non-literal (unknown) argument
makes the whole call `Unknown`. -/
theorem C6_combinator_fold_semantics :
    (∀ bs : List Bool,
        evaluateCombinator "all" (bs.map Node.boolLit) =
          some (bs.all (fun b => b))) ∧
    (∀ bs : List Bool,
        evaluateCombinator "any" (bs.map Node.boolLit) =
          some (bs.any (fun b => b))) ∧
    (∀ b : Bool, evaluateCombinator "not" [Node.boolLit b] = some (!b)) ∧
    (∀ bs : List Bool, bs.length ≠ 1 →
        evaluateCombinator "not" (bs.map Node.boolLit) = none) ∧
    (∀ (m : String) (args : List Node) (a : Node), a ∈ args →
        (∀ b, a ≠ Node.boolLit b) → evaluateCombinator m args = none) := by
  have hex : ∀ bs : List Bool, extractBooleanArgs (bs.map Node.boolLit) = some bs := by
    intro bs
    induction bs with
    | nil => rfl
    | cons b bs ih => simp [extractBooleanArgs, ih]
  have hnone : ∀ (args : List Node) (a : Node), a ∈ args →
      (∀ b, a ≠ Node.boolLit b) → extractBooleanArgs args = none := by
    intro args
    induction args with
    | nil => intro a ha; cases ha
    | cons x xs ih =>
        intro a ha hb
        rcases List.mem_cons.mp ha with ha | ha
        · subst ha
          cases a <;> first
            | exact absurd rfl (hb _)
            | simp [extractBooleanArgs]
        · have hx := ih a ha hb
          cases x <;> simp [extractBooleanArgs, hx]
  refine ⟨fun bs => ?_, fun bs => ?_, fun b => ?_, fun bs hlen => ?_,
    fun m args a ha hb => ?_⟩
  · simp [evaluateCombinator, hex]
  · simp [evaluateCombinator, hex]
  · simp [evaluateCombinator, extractBooleanArgs]
  · have : bs ≠ [] ∨ bs = [] := by tauto
    simp only [evaluateCombinator, hex]
    norm_num
    match bs, hlen with
    | [], _ => rfl
    | b1 :: b2 :: rest, _ => rfl
    | [b1], h => exact absurd rfl h
  · simp [evaluateCombinator, hnone args a ha hb]

/-- Witness for C6 at concrete inputs: `all(true,false)`, `any(true,false)`,
`not(true)`, `not(true,true)`, and `all(x)` with a non-literal argument. -/
theorem C6_combinator_fold_semantics_witness :
    evaluateCombinator "all" [Node.boolLit true, Node.boolLit false] = some false ∧
      evaluateCombinator "any" [Node.boolLit true, Node.boolLit false] = some true ∧
      evaluateCombinator "not" [Node.boolLit true] = some false ∧
      evaluateCombinator "not" [Node.boolLit true, Node.boolLit true] = none ∧
      evaluateCombinator "all" [Node.ident "x"] = none := by
  obtain ⟨h1, h2, h3, h4, h5⟩ := C6_combinator_fold_semantics
  refine ⟨?_, ?_, ?_, ?_, ?_⟩
  · exact h1 [true, false]
  · exact h2 [true, false]
  · exact h3 true
  · exact h4 [true, true] (by decide)
  · exact h5 "all" [Node.ident "x"] (Node.ident "x") (by simp)
      (fun b => by simp)

theorem evaluateFeature_not_strLit (a : Node) (fs : Option (List String))
    (h : ∀ s, a ≠ Node.strLit s) : evaluateFeature a fs = none := by
  cases fs with
  | none => rfl
  | some l =>
      cases a <;> first
        | exact absurd rfl (h _)
        | rfl

theorem featureCallStep_one_arg (B : Bindings) (cfg : TargetConfig)
    (f : String) (a : Node) (hf : B.featureLocal = some f) :
    featureCallStep B cfg (.ident f) [a] = evaluateFeature a cfg.features := by
  simp [featureCallStep, isFeatureCallGuard, isStandaloneFeatureCall, hf]

/-- A standalone feature call with a string-literal argument under an absent
feature list is returned unchanged with no records, whether or not the
callee name is also combinator-bound. -/
theorem visit_feature_strLit_absent (B : Bindings) (cfg : TargetConfig)
    (f s : String) (hf : B.featureLocal = some f) (hfeat : cfg.features = none) :
    visit B cfg (.call (.ident f) [.strLit s]) =
      (.call (.ident f) [.strLit s], []) := by
  have hstep : featureCallStep B cfg (.ident f) [.strLit s] = none := by
    rw [featureCallStep_one_arg B cfg f _ hf, hfeat]
    rfl
  simp only [visit, hstep]
  cases hc : getStandaloneCombinator B (.ident f) with
  | none => simp [visitList, visit]
  | some op => simp [visitList, visit, evaluateCombinator, extractBooleanArgs]

/-- C7 counterexample: `feature(onlywhen.darwin)` under
`{platform: "darwin", features: []}` — the argument is not a string
literal, yet the call is not left textually untouched: the argument is
folded and one record is emitted. -/
theorem C7_counterexample :
    visit { onlywhenNames := ["onlywhen"], featureLocal := some "feature" }
        { platform := some .darwin, features := some [] }
        (.call (.ident "feature") [.propAccess (.ident "onlywhen") "darwin"]) =
      (.call (.ident "feature") [.boolLit true],
       [⟨.property, .propAccess (.ident "onlywhen") "darwin", "true"⟩]) ∧
    (.call (.ident "feature") [Node.boolLit true] ≠
      Node.call (.ident "feature") [.propAccess (.ident "onlywhen") "darwin"]) := by
  constructor
  · decide
  · decide

/-- C7 (amended): feature-check evaluation folds to
`Known(argument ∈ features)` exactly when the argument is a string literal
and the feature list is present; an absent feature list or a non-literal
argument yields `Unknown` and never an error; the call itself is then never
replaced by a literal, and it is left textually untouched when the argument
is a string literal — but sub-expressions of a non-literal argument may
still be rewritten by the ordinary recursive descent (the call is rebuilt
around the rewritten argument with only the argument's records). -/
theorem C7_feature_check (B : Bindings) (cfg : TargetConfig) :
    (∀ arg : Node, evaluateFeature arg none = none) ∧
    (∀ (arg : Node) (fs : Option (List String)), (∀ s, arg ≠ Node.strLit s) →
        evaluateFeature arg fs = none) ∧
    (∀ (s : String) (fs : List String),
        evaluateFeature (.strLit s) (some fs) = some (fs.contains s)) ∧
    (∀ (f s : String) (fs : List String), B.featureLocal = some f →
        cfg.features = some fs →
        visit B cfg (.call (.ident f) [.strLit s]) =
          (.boolLit (fs.contains s),
           [⟨.feature, .call (.ident f) [.strLit s],
             replacementString (fs.contains s)⟩])) ∧
    (∀ f s : String, B.featureLocal = some f → cfg.features = none →
        visit B cfg (.call (.ident f) [.strLit s]) =
          (.call (.ident f) [.strLit s], [])) ∧
    (∀ (f : String) (a : Node), B.featureLocal = some f →
        B.combMap.lookup f = none → (∀ s, a ≠ Node.strLit s) →
        visit B cfg (.call (.ident f) [a]) =
          (.call (.ident f) [(visit B cfg a).1], (visit B cfg a).2)) := by
  refine ⟨fun arg => rfl, fun arg fs h => evaluateFeature_not_strLit arg fs h,
    fun s fs => rfl, ?_, ?_, ?_⟩
  · intro f s fs hf hfs
    have hstep : featureCallStep B cfg (.ident f) [.strLit s] =
        some (fs.contains s) := by
      rw [featureCallStep_one_arg B cfg f _ hf, hfs]
      rfl
    simp only [visit, hstep]
  · intro f s hf hfeat
    exact visit_feature_strLit_absent B cfg f s hf hfeat
  · intro f a hf hcomb hns
    have hstep : featureCallStep B cfg (.ident f) [a] = none := by
      rw [featureCallStep_one_arg B cfg f _ hf]
      exact evaluateFeature_not_strLit a cfg.features hns
    simp only [visit, hstep, getStandaloneCombinator, hcomb]
    simp [visitList, visit]

/-- Witness for C7 at concrete inputs covering the evaluation cases and the
untouched/fold visitor cases. -/
theorem C7_feature_check_witness :
    evaluateFeature (.strLit "x") none = none ∧
      evaluateFeature (.ident "y") (some ["x"]) = none ∧
      evaluateFeature (.strLit "x") (some ["x"]) = some true ∧
      visit { featureLocal := some "feature" } { features := some ["x"] }
          (.call (.ident "feature") [.strLit "x"]) =
        (.boolLit true,
         [⟨.feature, .call (.ident "feature") [.strLit "x"], "true"⟩]) ∧
      visit { featureLocal := some "feature" } {}
          (.call (.ident "feature") [.strLit "x"]) =
        (.call (.ident "feature") [.strLit "x"], []) ∧
      visit { featureLocal := some "feature" } {}
          (.call (.ident "feature") [.ident "y"]) =
        (.call (.ident "feature") [.ident "y"], []) := by
  obtain ⟨h1, h2, h3, h4, h5, h6⟩ :=
    C7_feature_check { featureLocal := some "feature" } { features := some ["x"] }
  obtain ⟨g1, g2, g3, g4, g5, g6⟩ :=
    C7_feature_check { featureLocal := some "feature" } {}
  refine ⟨h1 _, h2 _ (some ["x"]) (fun s => by simp), h3 "x" ["x"], ?_, ?_, ?_⟩
  · exact h4 "feature" "x" ["x"] rfl rfl
  · exact g5 "feature" "x" rfl rfl
  · have := g6 "feature" (.ident "y") rfl rfl (fun s => by simp)
    simpa [visit] using this

/-- The configuration field of a split-namespace category is absent. -/
def nsConfigFieldAbsent (ns : NsName) (cfg : TargetConfig) : Prop :=
  match ns with
  | .platform => cfg.platform = none
  | .runtime => cfg.runtime = none
  | .arch => cfg.arch = none

theorem resolveNamespacePropertyValue_absent (ns : NsName) (p : String)
    (cfg : TargetConfig) (h : nsConfigFieldAbsent ns cfg) :
    resolveNamespacePropertyValue ns p cfg = none := by
  cases ns with
  | platform =>
      simp only [nsConfigFieldAbsent] at h
      cases hl : PLATFORM_PROPERTIES.lookup p <;>
        simp [resolveNamespacePropertyValue, hl, h]
  | runtime =>
      simp only [nsConfigFieldAbsent] at h
      cases hl : RUNTIME_PROPERTIES.lookup p <;>
        simp [resolveNamespacePropertyValue, hl, h]
  | arch =>
      simp only [nsConfigFieldAbsent] at h
      cases hl : ARCH_PROPERTIES.lookup p <;>
        simp [resolveNamespacePropertyValue, hl, h]

theorem resolvePropertyValue_platform_absent (p : String) (cfg : TargetConfig)
    (hp : p ∈ PLATFORM_PROPERTIES.map Prod.fst) (h : cfg.platform = none) :
    resolvePropertyValue p cfg = none := by
  simp [PLATFORM_PROPERTIES] at hp
  rcases hp with rfl | rfl | rfl <;>
    simp [resolvePropertyValue, PLATFORM_PROPERTIES, List.lookup, h]

theorem resolvePropertyValue_runtime_absent (p : String) (cfg : TargetConfig)
    (hp : p ∈ RUNTIME_PROPERTIES.map Prod.fst) (h : cfg.runtime = none) :
    resolvePropertyValue p cfg = none := by
  simp [RUNTIME_PROPERTIES] at hp
  rcases hp with rfl | rfl | rfl | rfl <;>
    simp [resolvePropertyValue, PLATFORM_PROPERTIES, RUNTIME_PROPERTIES,
      List.lookup, h]

theorem resolvePropertyValue_arch_absent (p : String) (cfg : TargetConfig)
    (hp : p ∈ ARCH_PROPERTIES.map Prod.fst) (h : cfg.arch = none) :
    resolvePropertyValue p cfg = none := by
  simp [ARCH_PROPERTIES] at hp
  rcases hp with rfl | rfl <;>
    simp [resolvePropertyValue, PLATFORM_PROPERTIES, RUNTIME_PROPERTIES,
      ARCH_PROPERTIES, List.lookup, h]

/-- When neither property-resolution step fires, a property access is
rebuilt around its visited object. -/
theorem visit_propAccess_unresolved (B : Bindings) (cfg : TargetConfig)
    (obj : Node) (pname : String)
    (h1 : nsResolutionStep B cfg obj pname = none)
    (h2 : aggResolutionStep B cfg obj pname = none) :
    visit B cfg (.propAccess obj pname) =
      (.propAccess (visit B cfg obj).1 pname, (visit B cfg obj).2) := by
  simp only [visit, h1, h2]

/-- C1 counterexample: `feature(runtime.node)` under `{runtime: "node"}`
(features absent) — a feature-category expression whose configuration field
is absent, yet the rewriter does not leave it textually intact: the
argument is folded and one record is emitted. -/
theorem C1_counterexample :
    visit { nsMap := [("runtime", .runtime)], featureLocal := some "feature" }
        { runtime := some .node }
        (.call (.ident "feature") [.propAccess (.ident "runtime") "node"]) =
      (.call (.ident "feature") [.boolLit true],
       [⟨.property, .propAccess (.ident "runtime") "node", "true"⟩]) ∧
    (TargetConfig.features { runtime := some .node } = none) := by
  constructor
  · decide
  · rfl

/-- C1 (amended): an absent configuration field is treated as `Unknown`,
never as false: both property resolvers return `Unknown` for every property
of an absent-field category, the rewriter leaves a recognized
split-namespace or aggregate property access of such a category textually
intact with zero records (when the accessed identifier carries only that
binding), and a feature check with an absent feature list resolves
`Unknown` — left textually intact when its argument is a string literal,
while sub-expressions of a non-literal argument may still be rewritten. -/
theorem C1_absent_field_unknown (B : Bindings) (cfg : TargetConfig) :
    (∀ (ns : NsName) (p : String), nsConfigFieldAbsent ns cfg →
        resolveNamespacePropertyValue ns p cfg = none) ∧
    (∀ p : String, p ∈ PLATFORM_PROPERTIES.map Prod.fst → cfg.platform = none →
        resolvePropertyValue p cfg = none) ∧
    (∀ p : String, p ∈ RUNTIME_PROPERTIES.map Prod.fst → cfg.runtime = none →
        resolvePropertyValue p cfg = none) ∧
    (∀ p : String, p ∈ ARCH_PROPERTIES.map Prod.fst → cfg.arch = none →
        resolvePropertyValue p cfg = none) ∧
    (∀ (t p : String) (ns : NsName), B.nsMap.lookup t = some ns →
        nsConfigFieldAbsent ns cfg → t ∉ B.onlywhenNames →
        visit B cfg (.propAccess (.ident t) p) =
          (.propAccess (.ident t) p, [])) ∧
    (∀ t p : String, t ∈ B.onlywhenNames →
        t ∉ B.starImports → B.nsMap.lookup t = none →
        ((p ∈ PLATFORM_PROPERTIES.map Prod.fst ∧ cfg.platform = none) ∨
         (p ∈ RUNTIME_PROPERTIES.map Prod.fst ∧ cfg.runtime = none) ∨
         (p ∈ ARCH_PROPERTIES.map Prod.fst ∧ cfg.arch = none)) →
        resolvePropertyValue p cfg = none ∧
        visit B cfg (.propAccess (.ident t) p) =
          (.propAccess (.ident t) p, [])) ∧
    (∀ f s : String, B.featureLocal = some f → cfg.features = none →
        evaluateFeature (.strLit s) cfg.features = none ∧
        visit B cfg (.call (.ident f) [.strLit s]) =
          (.call (.ident f) [.strLit s], [])) := by
  refine ⟨fun ns p => resolveNamespacePropertyValue_absent ns p cfg,
    fun p => resolvePropertyValue_platform_absent p cfg,
    fun p => resolvePropertyValue_runtime_absent p cfg,
    fun p => resolvePropertyValue_arch_absent p cfg, ?_, ?_, ?_⟩
  · intro t p ns hns habs how
    have h1 : nsResolutionStep B cfg (.ident t) p = none := by
      simp [nsResolutionStep, getNamespaceAccess, hns,
        resolveNamespacePropertyValue_absent ns p cfg habs]
    have h2 : aggResolutionStep B cfg (.ident t) p = none := by
      simp [aggResolutionStep, getOnlywhenObject, how]
    rw [visit_propAccess_unresolved B cfg _ p h1 h2]
    simp [visit]
  · intro t p how hstar hns hd
    have hres : resolvePropertyValue p cfg = none := by
      rcases hd with ⟨hp, h⟩ | ⟨hp, h⟩ | ⟨hp, h⟩
      · exact resolvePropertyValue_platform_absent p cfg hp h
      · exact resolvePropertyValue_runtime_absent p cfg hp h
      · exact resolvePropertyValue_arch_absent p cfg hp h
    refine ⟨hres, ?_⟩
    have h1 : nsResolutionStep B cfg (.ident t) p = none := by
      simp [nsResolutionStep, getNamespaceAccess, hns]
    have h2 : aggResolutionStep B cfg (.ident t) p = none := by
      simp [aggResolutionStep, hres]
    rw [visit_propAccess_unresolved B cfg _ p h1 h2]
    simp [visit]
  · intro f s hf hfeat
    exact ⟨by rw [hfeat]; rfl, visit_feature_strLit_absent B cfg f s hf hfeat⟩

/-- Witness for C1 at concrete inputs: a namespace access, an aggregate
access and a feature check, each with the relevant field absent. -/
theorem C1_absent_field_unknown_witness :
    resolveNamespacePropertyValue .platform "darwin" {} = none ∧
      resolvePropertyValue "node" {} = none ∧
      visit { nsMap := [("platform", .platform)] } {}
          (.propAccess (.ident "platform") "darwin") =
        (.propAccess (.ident "platform") "darwin", []) ∧
      visit { onlywhenNames := ["onlywhen"] } {}
          (.propAccess (.ident "onlywhen") "darwin") =
        (.propAccess (.ident "onlywhen") "darwin", []) ∧
      visit { featureLocal := some "feature" } {}
          (.call (.ident "feature") [.strLit "x"]) =
        (.call (.ident "feature") [.strLit "x"], []) := by
  obtain ⟨h1, h2, h3, h4, h5, h6, h7⟩ :=
    C1_absent_field_unknown { nsMap := [("platform", .platform)] } {}
  obtain ⟨g1, g2, g3, g4, g5, g6, g7⟩ :=
    C1_absent_field_unknown { onlywhenNames := ["onlywhen"] } {}
  obtain ⟨f1, f2, f3, f4, f5, f6, f7⟩ :=
    C1_absent_field_unknown { featureLocal := some "feature" } {}
  refine ⟨h1 .platform "darwin" rfl, g3 "node" (by simp [RUNTIME_PROPERTIES]) rfl,
    ?_, ?_, ?_⟩
  · exact h5 "platform" "darwin" .platform (by decide) rfl (by decide)
  · exact (g6 "onlywhen" "darwin" (by decide) (by decide) (by decide)
      (Or.inl ⟨by simp [PLATFORM_PROPERTIES], rfl⟩)).2
  · exact (f7 "feature" "x" rfl rfl).2

/-- The false-branch rewrite of a decorated class declaration. -/
theorem visit_classDecl_false_eq (B : Bindings) (cfg : TargetConfig)
    (mods : List Node) (cname : Option String) (members : List Node)
    (i : Nat) (d : Node)
    (hd : findFirstDecoratorEval B cfg (mods.filter isDecoratorNode) =
      some (i, d, false)) :
    visit B cfg (.classDecl mods cname members) =
      (.classDecl (stripDecorators mods) cname
        (members.filterMap stubClassMember),
       [⟨.decorator, d, "(removed - class stubbed)"⟩]) := by
  simp only [visit, hd, stripDecorators]

/-- The true-branch rewrite of a decorated class declaration. -/
theorem visit_classDecl_true_eq (B : Bindings) (cfg : TargetConfig)
    (mods : List Node) (cname : Option String) (members : List Node)
    (i : Nat) (d : Node)
    (hd : findFirstDecoratorEval B cfg (mods.filter isDecoratorNode) =
      some (i, d, true)) :
    visit B cfg (.classDecl mods cname members) =
      (.classDecl ((mods.filter isDecoratorNode).eraseIdx i ++
          stripDecorators mods) cname (visitList B cfg members).1,
       ⟨.decorator, d, "(removed - condition true)"⟩ ::
         (visitList B cfg members).2) := by
  simp only [visit, hd, stripDecorators]

/-- The true-branch rewrite of a decorated method declaration. -/
theorem visit_methodMember_true_eq (B : Bindings) (cfg : TargetConfig)
    (mods : List Node) (ast : Bool) (nm : String) (q : Bool)
    (ps : List Param) (rT : Option String) (body : Option Node)
    (i : Nat) (d : Node)
    (hd : findFirstDecoratorEval B cfg (mods.filter isDecoratorNode) =
      some (i, d, true)) :
    visit B cfg (.methodMember mods ast nm q ps rT body) =
      (.methodMember ((mods.filter isDecoratorNode).eraseIdx i ++
          stripDecorators mods) ast nm q ps rT (visitOpt B cfg body).1,
       ⟨.decorator, d, "(removed - condition true)"⟩ ::
         (visitOpt B cfg body).2) := by
  simp only [visit, hd, stripDecorators]

/-- C3: for every class declaration whose first recognized onlywhen
decorator evaluates to `Known(false)`, the transform drops the decorators,
stubs the class — every method and constructor member keeps its name,
parameter list, modifiers (decorators stripped) and return type but gets an
empty body; every property member keeps its name, type annotation and
modifiers while its initializer is discarded — and appends exactly one
Transformation Record of kind "decorator". -/
theorem C3_decorator_false_class_stub (B : Bindings) (cfg : TargetConfig)
    (mods : List Node) (cname : Option String) (members : List Node)
    (i : Nat) (d : Node)
    (hd : findFirstDecoratorEval B cfg (mods.filter isDecoratorNode) =
      some (i, d, false)) :
    visit B cfg (.classDecl mods cname members) =
      (.classDecl (stripDecorators mods) cname
        (members.filterMap stubClassMember),
       [⟨.decorator, d, "(removed - class stubbed)"⟩]) ∧
    (∀ (ms : List Node) (ast : Bool) (nm : String) (q : Bool)
        (ps : List Param) (rT : Option String) (body : Option Node),
        Node.methodMember ms ast nm q ps rT body ∈ members →
        Node.methodMember (stripDecorators ms) ast nm q ps rT
            (some (.block [])) ∈ members.filterMap stubClassMember) ∧
    (∀ (ms : List Node) (ps : List Param) (body : Option Node),
        Node.ctorMember ms ps body ∈ members →
        Node.ctorMember (stripDecorators ms) ps (some (.block [])) ∈
          members.filterMap stubClassMember) ∧
    (∀ (ms : List Node) (nm : String) (q e : Bool) (ty : Option String)
        (init : Option Node),
        Node.propMember ms nm q e ty init ∈ members →
        Node.propMember (stripDecorators ms) nm q (!q && e) ty none ∈
          members.filterMap stubClassMember) := by
  refine ⟨visit_classDecl_false_eq B cfg mods cname members i d hd, ?_, ?_, ?_⟩
  · intro ms ast nm q ps rT body hm
    exact List.mem_filterMap.mpr ⟨_, hm, rfl⟩
  · intro ms ps body hm
    exact List.mem_filterMap.mpr ⟨_, hm, rfl⟩
  · intro ms nm q e ty init hm
    exact List.mem_filterMap.mpr ⟨_, hm, rfl⟩

/-- Witness for C3: a class with one false decorator, one method whose body
holds a string literal, and one initialized property. -/
theorem C3_decorator_false_class_stub_witness :
    visit { onlywhenNames := ["onlywhen"] } {}
        (.classDecl [.decorator (.call (.ident "onlywhen") [.boolLit false])]
          (some "C")
          [.methodMember [] false "m" false [] none
             (some (.block [.strLit "secret"])),
           .propMember [] "p" false false none (some (.boolLit true))]) =
      (.classDecl [] (some "C")
        [.methodMember [] false "m" false [] none (some (.block [])),
         .propMember [] "p" false false none none],
       [⟨.decorator, .decorator (.call (.ident "onlywhen") [.boolLit false]),
         "(removed - class stubbed)"⟩]) := by
  have h := (C3_decorator_false_class_stub { onlywhenNames := ["onlywhen"] } {}
    [.decorator (.call (.ident "onlywhen") [.boolLit false])] (some "C")
    [.methodMember [] false "m" false [] none (some (.block [.strLit "secret"])),
     .propMember [] "p" false false none (some (.boolLit true))]
    0 (.decorator (.call (.ident "onlywhen") [.boolLit false]))
    (by decide)).1
  exact h.trans (by decide)

/-- Output members of the false-branch stub are methods, constructors or
property declarations. -/
def isStubbedMemberShape : Node → Bool
  | .methodMember _ _ _ _ _ _ _ => true
  | .ctorMember _ _ _ => true
  | .propMember _ _ _ _ _ _ => true
  | _ => false

/-- C4 counterexample: a stubbed class with a get-accessor member — the
accessor does not appear in the output at all, so the input's member
surface is not preserved for every member kind. -/
theorem C4_counterexample :
    visit { onlywhenNames := ["onlywhen"] } {}
        (.classDecl [.decorator (.call (.ident "onlywhen") [.boolLit false])]
          (some "C") [.getAccessor [] "g" [.strLit "body"]]) =
      (.classDecl [] (some "C") [],
       [⟨.decorator, .decorator (.call (.ident "onlywhen") [.boolLit false]),
         "(removed - class stubbed)"⟩]) ∧
    Node.getAccessor [] "g" [.strLit "body"] ∈
      [Node.getAccessor [] "g" [.strLit "body"]] := by
  constructor
  · decide
  · decide

/-- C4 (amended): for every class stubbed because its recognized decorator
condition evaluated to `Known(false)`, the output class keeps the same
name; every constructor keeps its parameter signature, every method and
property member still appears with its declared signature; members of any
other kind (accessors, …) are dropped, and every output member is a
method, constructor, or property declaration with empty executable
behavior. -/
theorem C4_stub_class_surface (B : Bindings) (cfg : TargetConfig)
    (mods : List Node) (cname : Option String) (members : List Node)
    (i : Nat) (d : Node)
    (hd : findFirstDecoratorEval B cfg (mods.filter isDecoratorNode) =
      some (i, d, false)) :
    (visit B cfg (.classDecl mods cname members)).1 =
      .classDecl (stripDecorators mods) cname
        (members.filterMap stubClassMember) ∧
    (∀ (ms : List Node) (ps : List Param) (body : Option Node),
        Node.ctorMember ms ps body ∈ members →
        Node.ctorMember (stripDecorators ms) ps (some (.block [])) ∈
          members.filterMap stubClassMember) ∧
    (∀ (ms : List Node) (ast : Bool) (nm : String) (q : Bool)
        (ps : List Param) (rT : Option String) (body : Option Node),
        Node.methodMember ms ast nm q ps rT body ∈ members →
        Node.methodMember (stripDecorators ms) ast nm q ps rT
            (some (.block [])) ∈ members.filterMap stubClassMember) ∧
    (∀ (ms : List Node) (nm : String) (q e : Bool) (ty : Option String)
        (init : Option Node),
        Node.propMember ms nm q e ty init ∈ members →
        Node.propMember (stripDecorators ms) nm q (!q && e) ty none ∈
          members.filterMap stubClassMember) ∧
    (∀ x ∈ members.filterMap stubClassMember, isStubbedMemberShape x = true) := by
  refine ⟨by rw [visit_classDecl_false_eq B cfg mods cname members i d hd],
    ?_, ?_, ?_, ?_⟩
  · intro ms ps body hm
    exact List.mem_filterMap.mpr ⟨_, hm, rfl⟩
  · intro ms ast nm q ps rT body hm
    exact List.mem_filterMap.mpr ⟨_, hm, rfl⟩
  · intro ms nm q e ty init hm
    exact List.mem_filterMap.mpr ⟨_, hm, rfl⟩
  · intro x hx
    obtain ⟨a, _, ha⟩ := List.mem_filterMap.mp hx
    cases a <;> simp [stubClassMember] at ha <;> subst ha <;> rfl

/-- Witness for C4: class with a constructor, a method, a property and a
get-accessor, stubbed under a false decorator. -/
theorem C4_stub_class_surface_witness :
    (visit { onlywhenNames := ["onlywhen"] } {}
        (.classDecl [.decorator (.call (.ident "onlywhen") [.boolLit false])]
          (some "C")
          [.ctorMember [] [⟨"x", some "number"⟩] (some (.block [.strLit "s"])),
           .getAccessor [] "g" []])).1 =
      .classDecl [] (some "C")
        [.ctorMember [] [⟨"x", some "number"⟩] (some (.block []))] := by
  have h := (C4_stub_class_surface { onlywhenNames := ["onlywhen"] } {}
    [.decorator (.call (.ident "onlywhen") [.boolLit false])] (some "C")
    [.ctorMember [] [⟨"x", some "number"⟩] (some (.block [.strLit "s"])),
     .getAccessor [] "g" []]
    0 (.decorator (.call (.ident "onlywhen") [.boolLit false]))
    (by decide)).1
  exact h.trans (by decide)

/-- C8: on `Known(true)` the transform removes exactly the matched
decorator (remaining decorators keep their order, ahead of the other
modifiers, as the source rebuilds them), keeps the declaration
structurally, recursively rewrites inside the class members or the method
body, and prepends one Transformation Record of kind "decorator". -/
theorem C8_decorator_true_removal (B : Bindings) (cfg : TargetConfig) :
    (∀ (mods : List Node) (cname : Option String) (members : List Node)
        (i : Nat) (d : Node),
        findFirstDecoratorEval B cfg (mods.filter isDecoratorNode) =
          some (i, d, true) →
        visit B cfg (.classDecl mods cname members) =
          (.classDecl ((mods.filter isDecoratorNode).eraseIdx i ++
              stripDecorators mods) cname (visitList B cfg members).1,
           ⟨.decorator, d, "(removed - condition true)"⟩ ::
             (visitList B cfg members).2)) ∧
    (∀ (mods : List Node) (ast : Bool) (nm : String) (q : Bool)
        (ps : List Param) (rT : Option String) (body : Option Node)
        (i : Nat) (d : Node),
        findFirstDecoratorEval B cfg (mods.filter isDecoratorNode) =
          some (i, d, true) →
        visit B cfg (.methodMember mods ast nm q ps rT body) =
          (.methodMember ((mods.filter isDecoratorNode).eraseIdx i ++
              stripDecorators mods) ast nm q ps rT (visitOpt B cfg body).1,
           ⟨.decorator, d, "(removed - condition true)"⟩ ::
             (visitOpt B cfg body).2)) :=
  ⟨fun mods cname members i d hd =>
      visit_classDecl_true_eq B cfg mods cname members i d hd,
   fun mods ast nm q ps rT body i d hd =>
      visit_methodMember_true_eq B cfg mods ast nm q ps rT body i d hd⟩

/-- Witness for C8: a class decorated with `onlywhen(onlywhen.darwin)` plus
a second unrelated decorator, under `{platform: "darwin"}`; the method body
keeps its string literal and the nested `onlywhen.darwin` inside the kept
body is still folded. -/
theorem C8_decorator_true_removal_witness :
    visit { onlywhenNames := ["onlywhen"] } { platform := some .darwin }
        (.classDecl
          [.decorator (.call (.ident "onlywhen")
             [.propAccess (.ident "onlywhen") "darwin"]),
           .decorator (.call (.ident "other") [.boolLit true]),
           .plainMod "export"]
          (some "C")
          [.methodMember [] false "m" false [] none
             (some (.block [.strLit "kept",
               .propAccess (.ident "onlywhen") "darwin"]))]) =
      (.classDecl
        [.decorator (.call (.ident "other") [.boolLit true]),
         .plainMod "export"]
        (some "C")
        [.methodMember [] false "m" false [] none
           (some (.block [.strLit "kept", .boolLit true]))],
       [⟨.decorator,
         .decorator (.call (.ident "onlywhen")
           [.propAccess (.ident "onlywhen") "darwin"]),
         "(removed - condition true)"⟩,
        ⟨.property, .propAccess (.ident "onlywhen") "darwin", "true"⟩]) := by
  have h := (C8_decorator_true_removal { onlywhenNames := ["onlywhen"] }
    { platform := some .darwin }).1
    [.decorator (.call (.ident "onlywhen")
       [.propAccess (.ident "onlywhen") "darwin"]),
     .decorator (.call (.ident "other") [.boolLit true]),
     .plainMod "export"]
    (some "C")
    [.methodMember [] false "m" false [] none
       (some (.block [.strLit "kept",
         .propAccess (.ident "onlywhen") "darwin"]))]
    0
    (.decorator (.call (.ident "onlywhen")
       [.propAccess (.ident "onlywhen") "darwin"]))
    (by decide)
  exact h.trans (by decide)

/-- With an argument list whose visit changes it, the standalone feature
guard cannot fold the call: a single argument that changed was not a string
literal. -/
theorem featureCallStep_none_of_changed (B : Bindings) (cfg : TargetConfig)
    (callee : Node) (args : List Node)
    (hch : (visitList B cfg args).1 ≠ args) :
    featureCallStep B cfg callee args = none := by
  match args, hch with
  | [], hch => exact absurd rfl hch
  | [a], hch =>
      unfold featureCallStep isFeatureCallGuard
      cases hg : isStandaloneFeatureCall B callee with
      | false => simp
      | true =>
          simp only [List.length_cons, List.length_nil, beq_self_eq_true,
            Bool.and_true, if_pos, List.headD_cons]
          refine evaluateFeature_not_strLit a cfg.features (fun s hs => ?_)
          subst hs
          exact hch (by simp [visitList, visit])
  | a :: b :: rest, hch =>
      unfold featureCallStep isFeatureCallGuard
      simp [isStandaloneFeatureCall]

/-- C2: a combinator call — standalone or in aggregate-object method form —
that cannot be fully evaluated but whose argument list was changed by the
recursive descent is rebuilt with the folded arguments in place: the callee
and call shape are preserved, and the records are exactly the argument
records (none is emitted for the call node itself). -/
theorem C2_partial_fold_preserves_call (B : Bindings) (cfg : TargetConfig) :
    (∀ (f op : String) (args : List Node), B.combMap.lookup f = some op →
        evaluateCombinator op (visitList B cfg args).1 = none →
        (visitList B cfg args).1 ≠ args →
        visit B cfg (.call (.ident f) args) =
          (.call (.ident f) (visitList B cfg args).1,
           (visitList B cfg args).2)) ∧
    (∀ (cobj : Node) (m : String) (args : List Node),
        getOnlywhenObject B cobj = true → m ∈ COMBINATOR_METHODS →
        evaluateCombinator m (visitList B cfg args).1 = none →
        (visitList B cfg args).1 ≠ args →
        visit B cfg (.call (.propAccess cobj m) args) =
          (.call (.propAccess cobj m) (visitList B cfg args).1,
           (visitList B cfg args).2)) := by
  constructor
  · intro f op args hcomb heval hch
    have hstep := featureCallStep_none_of_changed B cfg (.ident f) args hch
    simp only [visit, hstep, getStandaloneCombinator, hcomb, heval]
    rw [if_pos hch]
  · intro cobj m args hobj hm heval hch
    have hstep := featureCallStep_none_of_changed B cfg (.propAccess cobj m)
      args hch
    have hcnone : getStandaloneCombinator B (.propAccess cobj m) = none := rfl
    have hcm : COMBINATOR_METHODS.contains m = true := by
      simpa [COMBINATOR_METHODS] using hm
    simp only [visit, hstep, hcnone, hobj, hcm, heval, if_true]
    rw [if_pos hch]

/-- Witness for C2: the spec's own example `all(onlywhen.darwin,
onlywhen.node)` under `{platform: "darwin"}` (runtime unset), in both the
standalone and the method form. -/
theorem C2_partial_fold_preserves_call_witness :
    visit { onlywhenNames := ["onlywhen"], combMap := [("all", "all")] }
        { platform := some .darwin }
        (.call (.ident "all")
          [.propAccess (.ident "onlywhen") "darwin",
           .propAccess (.ident "onlywhen") "node"]) =
      (.call (.ident "all")
        [.boolLit true, .propAccess (.ident "onlywhen") "node"],
       [⟨.property, .propAccess (.ident "onlywhen") "darwin", "true"⟩]) ∧
    visit { onlywhenNames := ["onlywhen"], combMap := [("all", "all")] }
        { platform := some .darwin }
        (.call (.propAccess (.ident "onlywhen") "all")
          [.propAccess (.ident "onlywhen") "darwin",
           .propAccess (.ident "onlywhen") "node"]) =
      (.call (.propAccess (.ident "onlywhen") "all")
        [.boolLit true, .propAccess (.ident "onlywhen") "node"],
       [⟨.property, .propAccess (.ident "onlywhen") "darwin", "true"⟩]) := by
  obtain ⟨h1, h2⟩ := C2_partial_fold_preserves_call
    { onlywhenNames := ["onlywhen"], combMap := [("all", "all")] }
    { platform := some .darwin }
  constructor
  · have h := h1 "all" "all"
      [.propAccess (.ident "onlywhen") "darwin",
       .propAccess (.ident "onlywhen") "node"]
      (by decide) (by decide) (by decide)
    exact h.trans (by decide)
  · have h := h2 (.ident "onlywhen") "all"
      [.propAccess (.ident "onlywhen") "darwin",
       .propAccess (.ident "onlywhen") "node"]
      (by decide) (by decide) (by decide) (by decide)
    exact h.trans (by decide)

/-! ## Equivalence of the decorator evaluator and the rewriter (C9) -/

theorem getNamespaceAccess_some (B : Bindings) (obj : Node) (pname : String)
    (ns : NsName) (p : String)
    (h : getNamespaceAccess B obj pname = some (ns, p)) :
    ∃ t, obj = .ident t ∧ B.nsMap.lookup t = some ns ∧ p = pname := by
  cases obj <;> simp [getNamespaceAccess] at h
  next t =>
    cases hl : B.nsMap.lookup t with
    | none => rw [hl] at h; simp at h
    | some ns2 =>
        rw [hl] at h
        simp at h
        exact ⟨t, rfl, by rw [hl, h.1], h.2.symm⟩

theorem isStandaloneFeatureCall_some (B : Bindings) (callee : Node)
    (h : isStandaloneFeatureCall B callee = true) :
    ∃ f, callee = .ident f ∧ B.featureLocal = some f := by
  cases callee <;> simp [isStandaloneFeatureCall] at h
  next f => exact ⟨f, rfl, h⟩

theorem getStandaloneCombinator_some (B : Bindings) (callee : Node)
    (op : String) (h : getStandaloneCombinator B callee = some op) :
    ∃ t, callee = .ident t ∧ B.combMap.lookup t = some op := by
  cases callee <;> simp [getStandaloneCombinator] at h
  next t => exact ⟨t, rfl, h⟩

theorem evaluateCombinator_extract (m : String) (l : List Node) :
    evaluateCombinator m l =
      match extractBooleanArgs l with
      | some bs => evaluateCombinatorValues m bs
      | none => none := by
  cases hx : extractBooleanArgs l <;>
    simp [evaluateCombinator, evaluateCombinatorValues, hx]

/-- Pointwise agreement of the visitor and the evaluator on an argument
list transfers to the combinator argument extraction. -/
theorem extract_visitList_eq_allSome (B : Bindings) (cfg : TargetConfig)
    (args : List Node)
    (IH : ∀ a ∈ args, ∀ b : Bool,
      ((visit B cfg a).1 = .boolLit b ↔
        evaluateExpressionToBoolean B cfg a = some b)) :
    extractBooleanArgs (visitList B cfg args).1 =
      allSome (evalArgsToBoolean B cfg args) := by
  induction args with
  | nil => rfl
  | cons x xs ihl =>
      have hx := IH x (List.mem_cons_self ..)
      have hrest := ihl (fun a ha b => IH a (List.mem_cons_of_mem _ ha) b)
      simp only [visitList, evalArgsToBoolean]
      cases hv : (visit B cfg x).1 with
      | boolLit bx =>
          have hex : evaluateExpressionToBoolean B cfg x = some bx :=
            (hx bx).mp hv
          simp [extractBooleanArgs, allSome, hex, hrest]
      | _ =>
          have hex : evaluateExpressionToBoolean B cfg x = none := by
            cases he : evaluateExpressionToBoolean B cfg x with
            | none => rfl
            | some b2 =>
                have := (hx b2).mpr he
                rw [hv] at this
                simp at this
          simp [extractBooleanArgs, allSome, hex, hv]

theorem c9_iff_aux (B : Bindings) (cfg : TargetConfig)
    (H1 : ∀ f, B.featureLocal = some f → B.combMap.lookup f = none)
    (H2 : ∀ t ns, B.nsMap.lookup t = some ns → t ∉ B.onlywhenNames) :
    ∀ (n : Nat) (e : Node), sizeOf e ≤ n → ∀ b : Bool,
      ((visit B cfg e).1 = .boolLit b ↔
        evaluateExpressionToBoolean B cfg e = some b) := by
  intro n
  induction n with
  | zero =>
      intro e he
      exact absurd he (by have := sizeOf_node_pos e; omega)
  | succ n ih =>
      intro e he b
      cases e with
      | boolLit v => simp [visit, evaluateExpressionToBoolean]
      | strLit s => simp [visit, evaluateExpressionToBoolean]
      | ident t => simp [visit, evaluateExpressionToBoolean]
      | importDecl s c => simp [visit, evaluateExpressionToBoolean]
      | plainMod s => simp [visit, evaluateExpressionToBoolean]
      | decorator x => simp [visit, evaluateExpressionToBoolean]
      | block l => simp [visit, evaluateExpressionToBoolean]
      | generic t l => simp [visit, evaluateExpressionToBoolean]
      | ctorMember ms ps bd => simp [visit, evaluateExpressionToBoolean]
      | propMember ms nm q ex ty init => simp [visit, evaluateExpressionToBoolean]
      | getAccessor ms nm bd => simp [visit, evaluateExpressionToBoolean]
      | methodMember ms ast nm q ps rT bd =>
          cases hfd : findFirstDecoratorEval B cfg (ms.filter isDecoratorNode) with
          | none => simp [visit, evaluateExpressionToBoolean, hfd]
          | some x =>
              obtain ⟨i, d, v⟩ := x
              cases v <;> simp [visit, evaluateExpressionToBoolean, hfd]
      | classDecl ms nm mem =>
          cases hfd : findFirstDecoratorEval B cfg (ms.filter isDecoratorNode) with
          | none => simp [visit, evaluateExpressionToBoolean, hfd]
          | some x =>
              obtain ⟨i, d, v⟩ := x
              cases v <;> simp [visit, evaluateExpressionToBoolean, hfd]
      | propAccess obj pname =>
          cases hns : getNamespaceAccess B obj pname with
          | some nsp =>
              obtain ⟨ns, p⟩ := nsp
              obtain ⟨t, rfl, hlk, rfl⟩ :=
                getNamespaceAccess_some B obj pname ns p hns
              have hstep : nsResolutionStep B cfg (.ident t) p =
                  resolveNamespacePropertyValue ns p cfg := by
                simp [nsResolutionStep, hns]
              have hnotow := H2 t ns hlk
              have hagg : aggResolutionStep B cfg (.ident t) p = none := by
                simp [aggResolutionStep, getOnlywhenObject, hnotow]
              cases hr : resolveNamespacePropertyValue ns p cfg with
              | some v =>
                  simp [visit, evaluateExpressionToBoolean, hns, hstep, hr]
              | none =>
                  simp [visit, evaluateExpressionToBoolean, hns, hstep, hr, hagg]
          | none =>
              have hstep : nsResolutionStep B cfg obj pname = none := by
                simp [nsResolutionStep, hns]
              cases hag : aggResolutionStep B cfg obj pname with
              | some v =>
                  simp [visit, evaluateExpressionToBoolean, hns, hstep, hag]
              | none =>
                  simp [visit, evaluateExpressionToBoolean, hns, hstep, hag]
      | call callee args =>
          have hcpos := sizeOf_node_pos callee
          have hargsize : ∀ a ∈ args, sizeOf a ≤ n := by
            intro a ha
            have h1 := List.sizeOf_lt_of_mem ha
            simp_arith at he
            omega
          have IH : ∀ a ∈ args, ∀ b2 : Bool,
              ((visit B cfg a).1 = .boolLit b2 ↔
                evaluateExpressionToBoolean B cfg a = some b2) :=
            fun a ha b2 => ih a (hargsize a ha) b2
          have hkey := extract_visitList_eq_allSome B cfg args IH
          cases hfg : isFeatureCallGuard B callee args with
          | true =>
              have hstep : featureCallStep B cfg callee args =
                  evaluateFeature (args.headD (.boolLit false)) cfg.features := by
                simp [featureCallStep, hfg]
              have hguard : isStandaloneFeatureCall B callee = true := by
                have := hfg
                unfold isFeatureCallGuard at this
                exact (Bool.and_eq_true_iff.mp this).1
              obtain ⟨f, rfl, hf⟩ :=
                isStandaloneFeatureCall_some B callee hguard
              have heval : evaluateExpressionToBoolean B cfg
                  (.call (.ident f) args) =
                  evaluateFeature (args.headD (.boolLit false)) cfg.features := by
                simp only [evaluateExpressionToBoolean, hfg, if_true]
              cases hev : evaluateFeature (args.headD (.boolLit false))
                  cfg.features with
              | some v =>
                  rw [heval, hev]
                  simp only [visit, hstep, hev]
                  simp
              | none =>
                  have hcomb := H1 f hf
                  rw [heval, hev]
                  simp only [visit, hstep, hev, getStandaloneCombinator, hcomb]
                  simp
          | false =>
              have hstep : featureCallStep B cfg callee args = none := by
                simp [featureCallStep, hfg]
              have heval : evaluateExpressionToBoolean B cfg (.call callee args) =
                  evalCallNonRec B cfg callee args
                    (evalArgsToBoolean B cfg args) := by
                simp only [evaluateExpressionToBoolean, hfg]
                simp
              cases hsc : getStandaloneCombinator B callee with
              | some op =>
                  obtain ⟨t, rfl, hlk⟩ :=
                    getStandaloneCombinator_some B callee op hsc
                  cases hall : allSome (evalArgsToBoolean B cfg args) with
                  | some bs =>
                      have hcomb : evaluateCombinator op (visitList B cfg args).1 =
                          evaluateCombinatorValues op bs := by
                        rw [evaluateCombinator_extract, hkey, hall]
                      cases hv : evaluateCombinatorValues op bs with
                      | some v =>
                          rw [heval]
                          simp only [evalCallNonRec, hsc, hall, hv]
                          simp only [visit, hstep, hsc, hcomb, hv]
                          simp
                      | none =>
                          rw [heval]
                          simp only [evalCallNonRec, hsc, hall, hv]
                          simp only [visit, hstep, hsc, hcomb, hv,
                            evalCallMethodPart]
                          split <;> simp
                  | none =>
                      have hcomb : evaluateCombinator op (visitList B cfg args).1 =
                          none := by
                        rw [evaluateCombinator_extract, hkey, hall]
                      rw [heval]
                      simp only [evalCallNonRec, hsc, hall, evalCallMethodPart]
                      simp only [visit, hstep, hsc, hcomb]
                      split <;> simp
              | none =>
                  have hmp : evaluateExpressionToBoolean B cfg (.call callee args) =
                      evalCallMethodPart B cfg callee args
                        (evalArgsToBoolean B cfg args) := by
                    rw [heval]
                    simp [evalCallNonRec, hsc]
                  cases callee with
                  | propAccess cobj m =>
                      cases hobj : getOnlywhenObject B cobj with
                      | false =>
                          rw [hmp]
                          simp only [evalCallMethodPart, hobj]
                          simp only [visit, hstep, hsc, hobj]
                          simp
                      | true =>
                          cases hcm : COMBINATOR_METHODS.contains m with
                          | true =>
                              have hmf : (m == FEATURE_METHOD) = false := by
                                simp [COMBINATOR_METHODS] at hcm
                                rcases hcm with rfl | rfl | rfl <;> decide
                              have hmfp : evalMethodFeaturePart cfg m args
                                  = none := by
                                unfold evalMethodFeaturePart
                                cases args with
                                | nil => rfl
                                | cons a rest => cases rest <;> simp [hmf]
                              cases hall : allSome (evalArgsToBoolean B cfg args) with
                              | some bs =>
                                  have hcomb : evaluateCombinator m
                                      (visitList B cfg args).1 =
                                      evaluateCombinatorValues m bs := by
                                    rw [evaluateCombinator_extract, hkey, hall]
                                  cases hv : evaluateCombinatorValues m bs with
                                  | some v =>
                                      rw [hmp]
                                      simp only [evalCallMethodPart, hobj, hcm,
                                        hall, hv, if_true]
                                      simp only [visit, hstep, hsc, hobj, hcm,
                                        hcomb, hv]
                                      simp
                                  | none =>
                                      rw [hmp]
                                      simp only [evalCallMethodPart, hobj, hcm,
                                        hall, hv, hmfp, if_true]
                                      simp only [visit, hstep, hsc, hobj, hcm,
                                        hcomb, hv, hmfp, eq_self_iff_true,
                                        if_true]
                                      rcases eq_or_ne (visitList B cfg args).1
                                        args with hch | hch <;> simp [hch]
                              | none =>
                                  have hcomb : evaluateCombinator m
                                      (visitList B cfg args).1 = none := by
                                    rw [evaluateCombinator_extract, hkey, hall]
                                  rw [hmp]
                                  simp only [evalCallMethodPart, hobj, hcm,
                                    hall, hmfp, if_true]
                                  simp only [visit, hstep, hsc, hobj, hcm,
                                    hcomb, hmfp, eq_self_iff_true, if_true]
                                  rcases eq_or_ne (visitList B cfg args).1
                                    args with hch | hch <;> simp [hch]
                          | false =>
                              cases hmfp : evalMethodFeaturePart cfg m args with
                              | some v =>
                                  rw [hmp]
                                  simp only [evalCallMethodPart, hobj, hcm,
                                    hmfp, if_true, Bool.false_eq_true, if_false]
                                  simp only [visit, hstep, hsc, hobj, hcm, hmfp]
                                  simp
                              | none =>
                                  rw [hmp]
                                  simp only [evalCallMethodPart, hobj, hcm,
                                    hmfp, if_true, Bool.false_eq_true, if_false]
                                  simp only [visit, hstep, hsc, hobj, hcm, hmfp]
                                  simp
                  | _ =>
                      rw [hmp]
                      simp only [visit, hstep, hsc, evalCallMethodPart]
                      simp

/-- C9 counterexample: with the same local name imported both as the
feature predicate and as a combinator (`import { feature as all, all }`),
`all(true)` folds to `true` in the rewriter but evaluates to `Unknown` in
the decorator evaluator (which returns the failed feature evaluation
without falling through to the combinator rule). -/
theorem C9_counterexample :
    (visit { combMap := [("all", "all")], featureLocal := some "all" } {}
        (.call (.ident "all") [.boolLit true])).1 = .boolLit true ∧
    evaluateExpressionToBoolean
        { combMap := [("all", "all")], featureLocal := some "all" } {}
        (.call (.ident "all") [.boolLit true]) = none := by
  constructor
  · decide
  · decide

/-- C9 (amended): provided no local identifier is bound both as the feature
predicate and as a combinator, and no identifier is bound both as a
split-namespace object and as the aggregate object, the decorator-argument
evaluator and the tree rewriter agree on every expression: the rewriter
turns an expression into the boolean literal `b` exactly when
`evaluateExpressionToBoolean` returns `Known(b)`. -/
theorem C9_evaluator_matches_rewriter (B : Bindings) (cfg : TargetConfig)
    (H1 : ∀ f, B.featureLocal = some f → B.combMap.lookup f = none)
    (H2 : ∀ t ns, B.nsMap.lookup t = some ns → t ∉ B.onlywhenNames)
    (e : Node) (b : Bool) :
    (visit B cfg e).1 = .boolLit b ↔
      evaluateExpressionToBoolean B cfg e = some b :=
  c9_iff_aux B cfg H1 H2 (sizeOf e) e le_rfl b

/-- Witness for C9: a collision-free binding table; the nested combinator
`all(onlywhen.darwin, not(platform.linux))` under `{platform: "darwin"}`
resolves to `Known(true)` in both the rewriter and the evaluator. -/
theorem C9_evaluator_matches_rewriter_witness :
    evaluateExpressionToBoolean
        { onlywhenNames := ["onlywhen"], nsMap := [("platform", .platform)],
          combMap := [("all", "all"), ("not", "not")],
          featureLocal := some "feature" }
        { platform := some .darwin }
        (.call (.ident "all")
          [.propAccess (.ident "onlywhen") "darwin",
           .call (.ident "not") [.propAccess (.ident "platform") "linux"]]) =
      some true := by
  refine (C9_evaluator_matches_rewriter
    { onlywhenNames := ["onlywhen"], nsMap := [("platform", .platform)],
      combMap := [("all", "all"), ("not", "not")],
      featureLocal := some "feature" }
    { platform := some .darwin } ?_ ?_
    (.call (.ident "all")
      [.propAccess (.ident "onlywhen") "darwin",
       .call (.ident "not") [.propAccess (.ident "platform") "linux"]])
    true).mp (by decide)
  · intro f hf
    cases hf
    decide
  · intro t ns hlk
    by_cases ht : t = "platform"
    · subst ht; decide
    · have hne : (t == "platform") = false := by
        simp only [beq_eq_false_iff_ne]
        exact ht
      simp [List.lookup, hne] at hlk

end Onlywhen
